import Mathlib

/-!
Shallow embedding of the national-parks map visualization (src/js/main.js and
the tooltip module src/unnamed/part_000).

JavaScript numbers are modelled as `ℚ` (exact arithmetic; the claims under
study are order/threshold properties that do not depend on rounding),
`new Date(s).getTime()` is modelled by an abstract parameter
`dv : String → Option Int` (`none` for an invalid date, i.e. `NaN`), and the
DOM/rendering surface is modelled by explicit records of the attributes the
code writes.
-/

namespace NP

/-- One entry of `data/visits.json` as consumed by the animation code:
a park code and a raw date string. -/
structure Visit where
  parkCode : String
  date : String
deriving DecidableEq, Repr

/-- The sort comparator `(a, b) => new Date(a.date) - new Date(b.date)` of
`animateChronologicalReveal`, turned into the "a may come before b" Boolean
relation used by a stable sort: the comparator result is `≤ 0` when both dates
parse and `a`'s is not later, and is `NaN` (treated as `+0`, i.e. a tie) when
either date fails to parse. -/
def jsDateLe (dv : String → Option Int) (a b : Visit) : Bool :=
  match dv a.date, dv b.date with
  | some x, some y => decide (x ≤ y)
  | _, _ => true

/-- Embeds `[...visits].sort((a, b) => new Date(a.date) - new Date(b.date))`:
a stable sort of a copy of the visits by date (`Array.prototype.sort` is
stable, which `List.mergeSort` models). -/
def sortedVisits (dv : String → Option Int) (visits : List Visit) : List Visit :=
  visits.mergeSort (jsDateLe dv)

/-- The dedup filter of `animateChronologicalReveal`: keep a visit iff its
park code has not been seen yet, threading the mutable `seenParks` set. -/
def chronoDedup (seen : List String) : List Visit → List Visit
  | [] => []
  | v :: rest =>
    if v.parkCode ∈ seen then chronoDedup seen rest
    else v :: chronoDedup (v.parkCode :: seen) rest

/-- The `chronologicalParks` array: unique park codes in chronological order of first
visit, as computed by `animateChronologicalReveal` (sort, dedup by first
occurrence, map to park codes). -/
def chronologicalParks (dv : String → Option Int) (visits : List Visit) : List String :=
  (chronoDedup [] (sortedVisits dv visits)).map (·.parkCode)

/-- The earliest parsed visit date of park `p` in `visits` (what the spec
calls the marker's earliest visit date). -/
def earliestDate (dv : String → Option Int) (visits : List Visit) (p : String) : Option Int :=
  ((visits.filter (fun v => v.parkCode = p)).filterMap (fun v => dv v.date)).min?

/-- A concrete date valuation for the spec's worked example, assigning the
three example date strings timestamps in their calendar order (as
`new Date(...)` would). -/
def exDateVal (s : String) : Option Int :=
  if s = "2020-01-01" then some 0
  else if s = "2021-05-01" then some 1
  else if s = "2022-01-01" then some 2
  else none

/-- The example visits list of the spec:
`[(A,"2021-05-01"), (B,"2020-01-01"), (A,"2022-01-01")]`. -/
def exVisits : List Visit :=
  [⟨"A", "2021-05-01"⟩, ⟨"B", "2020-01-01"⟩, ⟨"A", "2022-01-01"⟩]

instance : Std.Antisymm (fun x y : Int => x ≤ y) :=
  ⟨fun h1 h2 => Int.le_antisymm h1 h2⟩

/-! ## Reveal sequencer and counter (`animateReveal` / `updateParksCounter`)

The outer timeline of `animateChronologicalReveal` runs one `animateReveal`
callback per animation frame.  A frame is modelled as a pure step on an
explicit `RevealState`; the frame timestamp `currentTime` is the step's
input.  `present c` models `parkImageMap.get(c)` being defined. -/
/-- The numeric configuration `CONFIG` of main.js. -/
structure ParkRadiusConfig where
  lower48 : ℚ
  others : ℚ
deriving DecidableEq, Repr

structure Config where
  width : ℚ
  height : ℚ
  simulationIterations : Nat
  parkRadius : ParkRadiusConfig
  animationDuration : ℚ
deriving DecidableEq, Repr

def CONFIG : Config :=
  { width := 900, height := 500, simulationIterations := 5,
    parkRadius := { lower48 := 16, others := 10 }, animationDuration := 1500 }

def easeInQuad (t : ℚ) : ℚ := t * t

/-- Embeds `progress = Math.min(elapsed / duration, 1)` of `animateReveal`. -/
def revealProgress (duration start t : ℚ) : ℚ := min ((t - start) / duration) 1

/-- Embeds `currentIndex = Math.floor(easeInQuad(progress) * totalParks)`. -/
def currentIndexAt (total : Nat) (duration start t : ℚ) : Nat :=
  (Int.floor (easeInQuad (revealProgress duration start t) * total)).toNat

/-- The park codes at positions `[lo, hi)` of the chronological order whose
image exists (`if (park)` in the JS loop skips codes with no image). -/
def revealRange (parks : List String) (present : String → Bool) (lo hi : Nat) : List String :=
  (List.range' lo (hi - lo)).filterMap fun i =>
    match parks[i]? with
    | some c => if present c then some c else none
    | none => none

/-- The mutable state threaded through `animateReveal` frames:
the `lastProcessedIndex` cursor, the codes whose inset-shadow filter has been
cleared (revealed markers), and the pop-in entries pushed onto
`animatingParks` (code, startTime). -/
structure RevealState where
  lastProcessedIndex : Nat
  revealed : List String
  tasks : List (String × ℚ)
deriving DecidableEq, Repr

/-- One `animateReveal(currentTime)` frame: reveal the range
`[lastProcessedIndex, currentIndex)` and schedule one pop-in task per newly
revealed marker; advance the cursor; if `progress < 1` request another frame,
otherwise run the finalization loop, which force-reveals
`[lastProcessedIndex, totalParks)` with `filter` cleared and `transform`
removed, scheduling nothing.  Returns the new state and whether another frame
was requested. -/
def revealFrame (parks : List String) (present : String → Bool) (duration start : ℚ)
    (s : RevealState) (t : ℚ) : RevealState × Bool :=
  let progress := revealProgress duration start t
  let currentIndex := (Int.floor (easeInQuad progress * parks.length)).toNat
  let newly := revealRange parks present s.lastProcessedIndex currentIndex
  let s1 : RevealState :=
    { lastProcessedIndex := currentIndex,
      revealed := s.revealed ++ newly,
      tasks := s.tasks ++ newly.map (fun c => (c, t)) }
  if progress < 1 then (s1, true)
  else
    ({ s1 with revealed := s1.revealed ++ revealRange parks present currentIndex parks.length },
     false)

/-- Embeds `new Set(visits.map(v => v.parkCode)).size` — the unique visited-park
count that `updateParksCounter` animates toward. -/
def uniqueParkCount (visits : List Visit) : Nat :=
  (visits.map (·.parkCode)).dedup.length

/-- One `animateCount(currentTime)` frame of `updateParksCounter`: the counter
text after the frame and whether another frame was requested (the final frame
overwrites the eased value with exactly the target). -/
def animateCountFrame (targetCount : Nat) (duration start t : ℚ) : Nat × Bool :=
  let progress := min ((t - start) / duration) 1
  let currentCount := (Int.floor (easeInQuad progress * targetCount)).toNat
  if progress < 1 then (currentCount, true) else (targetCount, false)

/-! ## Per-marker pop-in animation (`updateAnimatingParks`) -/
/-- One entry of the `animatingParks` array: the marker, its center, and the
task's start timestamp. -/
structure ParkAnim where
  code : String
  cx : ℚ
  cy : ℚ
  startTime : ℚ
deriving DecidableEq, Repr

/-- The `easeOutElastic` curve of main.js returns exactly 0 at `t = 0` and exactly 1 at
`t = 1` by its explicit branches; the remaining branch
`2^(-10 t) * sin((t * 10 - 0.75) * 2π/3) + 1` is transcendental (not
rational-valued) and is kept abstract as the parameter `f`. -/
def easeOutElasticWith (f : ℚ → ℚ) (t : ℚ) : ℚ :=
  if t = 0 then 0 else if t = 1 then 1 else f t

/-- The transform attribute a pop-in tick writes to a marker: `scaleAt`
models `translate(cx, cy) scale(s) translate(-cx, -cy)`, `cleared` models
`attr('transform', null)`. -/
inductive TransformWrite where
  | scaleAt (cx cy s : ℚ)
  | cleared
deriving DecidableEq, Repr

/-- Processing of one `animatingParks` entry at tick time `now`:
`localProgress = Math.min((now - startTime) / individualDuration, 1)`; the
tick writes the eased scale transform, and when `localProgress >= 1` the
completion runs in the same tick — the transform is set back to `null`
(the net write) and the entry is spliced out.  Returns the surviving entry
(if any) and the entry's net transform write. -/
def tickAnim (f : ℚ → ℚ) (individualDuration now : ℚ) (a : ParkAnim) :
    Option ParkAnim × (String × TransformWrite) :=
  let localProgress := min ((now - a.startTime) / individualDuration) 1
  if 1 ≤ localProgress then (none, (a.code, TransformWrite.cleared))
  else (some a, (a.code, TransformWrite.scaleAt a.cx a.cy (easeOutElasticWith f localProgress)))

/-- One `updateAnimatingParks(currentTime)` frame over the whole array:
surviving entries, plus one net transform write per processed entry. -/
def updateAnimatingParks (f : ℚ → ℚ) (individualDuration now : ℚ)
    (anims : List ParkAnim) : List ParkAnim × List (String × TransformWrite) :=
  (anims.filterMap (fun a => (tickAnim f individualDuration now a).1),
   anims.map (fun a => (tickAnim f individualDuration now a).2))

/-- Run `updateAnimatingParks` over a sequence of frame timestamps. -/
def runAnimFrames (f : ℚ → ℚ) (individualDuration : ℚ)
    (anims : List ParkAnim) : List ℚ → List ParkAnim
  | [] => anims
  | t :: ts => runAnimFrames f individualDuration
      (updateAnimatingParks f individualDuration t anims).1 ts

/-! ## Tooltip placement (`positionTooltip`) and mouse interaction handlers

`window.visualViewport` is modelled as `Option VisualViewport`; the window
fallback sizes are `innerWidth`/`innerHeight`.  The tooltip's rendered size is
`tipW`/`tipH` (its `offsetWidth`/`offsetHeight`). -/
structure VisualViewport where
  width : ℚ
  height : ℚ
  offsetLeft : ℚ
  offsetTop : ℚ
deriving DecidableEq, Repr

/-- The style writes `positionTooltip` performs: the `--tx`/`--ty` custom
properties and the two flip classes. -/
structure TooltipPlacement where
  tx : ℚ
  ty : ℚ
  flipX : Bool
  flipY : Bool
deriving DecidableEq, Repr

/-- Embeds `positionTooltip(tooltip, x, y, padding)` of main.js / the tooltip module:
viewport size and offset come from the visual viewport when available and
from the window otherwise; the anchor is made viewport-relative; each axis
flips exactly when anchor + tooltip extent overflows
`viewportExtent - padding`. -/
def positionTooltip (vv : Option VisualViewport) (innerWidth innerHeight : ℚ)
    (tipW tipH : ℚ) (x y padding : ℚ) : TooltipPlacement :=
  let viewportWidth := match vv with | some v => v.width | none => innerWidth
  let viewportHeight := match vv with | some v => v.height | none => innerHeight
  let offsetX := match vv with | some v => v.offsetLeft | none => 0
  let offsetY := match vv with | some v => v.offsetTop | none => 0
  let relativeX := x - offsetX
  let relativeY := y - offsetY
  { tx := x, ty := y,
    flipX := decide (relativeX + tipW > viewportWidth - padding),
    flipY := decide (relativeY + tipH > viewportHeight - padding) }

/-- The flip rule in the spec's words, per axis: flip exactly when the
viewport-relative anchor plus the tooltip extent exceeds
`viewportExtent - padding`. -/
def specAxisFlip (anchorRel extent viewportExtent padding : ℚ) : Bool :=
  decide (anchorRel + extent > viewportExtent - padding)

/-- The spec's viewport selection: the visual viewport's size and offset when
available, else the window size with zero offset. -/
def specViewport (vv : Option VisualViewport) (innerWidth innerHeight : ℚ) : ℚ × ℚ × ℚ × ℚ :=
  match vv with
  | some v => (v.width, v.height, v.offsetLeft, v.offsetTop)
  | none => (innerWidth, innerHeight, 0, 0)

/-! ## Interaction state (`touchState`) and the mouse handlers -/
/-- A park record as bound to a rendered marker (the fields the tooltip
content uses). -/
structure Park where
  parkCode : String
  name : String
  state : String
deriving DecidableEq, Repr

/-- The tooltip's observable DOM state: whether it is displayed, which park's
data fills its image/name (`content`), and the last placement written. -/
structure TooltipView where
  display : Bool
  content : Option Park
  placement : Option TooltipPlacement
deriving DecidableEq, Repr

/-- The `touchState` record of main.js. -/
structure TouchState where
  active : Bool
  currentTarget : Option String
deriving DecidableEq, Repr

/-- The `showTooltip` helper: fills the image/name from the park data and displays. -/
def showTooltip (d : Park) (tt : TooltipView) : TooltipView :=
  { tt with content := some d, display := true }

/-- The `hideTooltip` helper: sets `display: none`. -/
def hideTooltip (tt : TooltipView) : TooltipView :=
  { tt with display := false }

/-- Applies `positionTooltip` to the tooltip state. -/
def positionTooltipOn (vv : Option VisualViewport) (innerWidth innerHeight tipW tipH : ℚ)
    (x y padding : ℚ) (tt : TooltipView) : TooltipView :=
  { tt with placement := some (positionTooltip vv innerWidth innerHeight tipW tipH x y padding) }

/-- The `mouseover` handler of `setupMouseInteractions`. -/
def onMouseOver (ts : TouchState) (d : Park) (tt : TooltipView) : TooltipView :=
  if ts.active then tt else showTooltip d tt

/-- The `mousemove` handler of `setupMouseInteractions` (padding defaults
to 0). -/
def onMouseMove (ts : TouchState) (vv : Option VisualViewport)
    (innerWidth innerHeight tipW tipH clientX clientY : ℚ) (tt : TooltipView) : TooltipView :=
  if ts.active then tt
  else positionTooltipOn vv innerWidth innerHeight tipW tipH clientX clientY 0 tt

/-- The `mouseout` handler of `setupMouseInteractions`. -/
def onMouseOut (ts : TouchState) (tt : TooltipView) : TooltipView :=
  if ts.active then tt else hideTooltip tt

/-! ## Touch interaction machine (`setupTouchInteractions`)

Events: a `touchstart` on a marker image (its handler stops propagation, so
the body handler does not also run), a `touchstart` outside every marker
(only the body handler runs), a `touchend` on the body, and an
animation-frame callback.  `touchend` registers two nested
`requestAnimationFrame` callbacks; `pendingFrames` holds one frame-countdown
per registered chain (2 = fires after the second upcoming frame). -/
inductive TouchEvent where
  | startOnMarker (d : Park) (touchX touchY : ℚ)
  | startOutside
  | endTouch
  | frame
deriving DecidableEq, Repr

structure InteractionState where
  touch : TouchState
  tooltip : TooltipView
  pendingFrames : List Nat
deriving DecidableEq, Repr

/-- The marker `touchstart` handler.  It sets `active = true`; if the tapped
element is the current target it toggles off (hide tooltip, clear transform,
deselect, `active = false` — the net effect of the early-return branch);
otherwise it selects the new target (the scale transform follows
`currentTarget`), shows the tooltip and positions it with padding 10 at the
touch point. -/
def touchStartOnMarkerStep (vv : Option VisualViewport) (innerW innerH tipW tipH : ℚ)
    (d : Park) (touchX touchY : ℚ) (s : InteractionState) : InteractionState :=
  if s.touch.currentTarget = some d.parkCode then
    { s with tooltip := hideTooltip s.tooltip,
             touch := { active := false, currentTarget := none } }
  else
    { s with touch := { active := true, currentTarget := some d.parkCode },
             tooltip := positionTooltipOn vv innerW innerH tipW tipH touchX touchY 10
               (showTooltip d s.tooltip) }

/-- The body `touchstart.tooltip` handler for a tap outside all markers. -/
def touchStartOutsideStep (s : InteractionState) : InteractionState :=
  { s with tooltip := hideTooltip s.tooltip,
           touch := { active := false, currentTarget := none } }

/-- The body `touchend.tooltip` handler: registers a two-frame-deep nested
`requestAnimationFrame` chain. -/
def touchEndStep (s : InteractionState) : InteractionState :=
  { s with pendingFrames := 2 :: s.pendingFrames }

/-- One animation frame: every pending chain advances; a chain reaching 0 runs
the deferred reset, which clears `active` only if it is still set and the
tooltip is still displayed. -/
def frameStep (s : InteractionState) : InteractionState :=
  let p := s.pendingFrames.map (fun n => n - 1)
  let fire := p.contains 0
  { s with
      touch := { s.touch with active :=
        if fire && s.touch.active && s.tooltip.display then false else s.touch.active },
      pendingFrames := p.filter (fun n => n ≠ 0) }

def interactionStep (vv : Option VisualViewport) (innerW innerH tipW tipH : ℚ)
    (s : InteractionState) : TouchEvent → InteractionState
  | .startOnMarker d tx ty => touchStartOnMarkerStep vv innerW innerH tipW tipH d tx ty s
  | .startOutside => touchStartOutsideStep s
  | .endTouch => touchEndStep s
  | .frame => frameStep s

def runInteraction (vv : Option VisualViewport) (innerW innerH tipW tipH : ℚ) :
    InteractionState → List TouchEvent → InteractionState
  | s, [] => s
  | s, e :: es =>
    runInteraction vv innerW innerH tipW tipH (interactionStep vv innerW innerH tipW tipH s e) es

/-- The state at page setup: `{active: false, currentTarget: null}`, tooltip
hidden and empty, no pending frame callbacks. -/
def initialInteraction : InteractionState :=
  { touch := { active := false, currentTarget := none },
    tooltip := { display := false, content := none, placement := none },
    pendingFrames := [] }

/-! ## Projection and node creation (`createParkNodes`), counter target,
image-settle wait (`waitForImages`), and `formatDate` -/
/-- The static overseas-parks membership list of main.js. -/
def osParks : List String :=
  ["dena", "gaar", "glba", "katm", "npsa", "hale", "havo",
   "kefj", "lacl", "wrst", "kova", "viis"]

/-- One entry of `data/parks.json` (the fields `createParkNodes` reads). -/
structure Place where
  parkCode : String
  longitude : ℚ
  latitude : ℚ
deriving DecidableEq, Repr

/-- A positioned node as built by `createParkNodes`: radius, anchor (`px`,
`py`) and current position (`x`, `y`), both initialized to the projected
point. -/
structure ParkNode where
  parkCode : String
  r : ℚ
  px : ℚ
  py : ℚ
  x : ℚ
  y : ℚ
deriving DecidableEq, Repr

/-- Embeds `createParkNodes(places, projection, config)`: project each place; a
place whose projection returns no result maps to `null` and is removed by
`.filter(Boolean)`; otherwise the node gets the small radius for overseas
parks and the standard one else. -/
def createParkNodes (proj : ℚ × ℚ → Option (ℚ × ℚ)) (places : List Place)
    (config : Config) : List ParkNode :=
  places.filterMap fun d =>
    (proj (d.longitude, d.latitude)).map fun coords =>
      { parkCode := d.parkCode,
        r := if osParks.contains d.parkCode
             then config.parkRadius.others else config.parkRadius.lower48,
        px := coords.1, py := coords.2, x := coords.1, y := coords.2 }

/-- What `updateParksCounter` does when invoked: with no visits it writes the
text `0` once and returns; otherwise it starts a count-up animation toward the
unique-park count. -/
inductive CounterStart where
  | immediate (n : Nat)
  | animate (target : Nat)
deriving DecidableEq, Repr

def updateParksCounterStart (visits : List Visit) : CounterStart :=
  if visits.isEmpty then CounterStart.immediate 0
  else CounterStart.animate (uniqueParkCount visits)

/-- Whether `animateChronologicalReveal` requests any animation frame: its
guard `if (!visits || visits.length === 0) return;` makes it a no-op on an
empty visits list. -/
def animateChronologicalRevealStarts (visits : List Visit) : Bool :=
  !visits.isEmpty

/-- The counting loop inside `waitForImages`: `loadedCount` starts at 0; each
settle callback (`load`/`error`/already-`complete`) runs `checkComplete`,
which increments it and resolves the promise exactly when it equals
`totalImages`.  `waitRun total loaded s` is whether `resolve` gets called
within the next `s` settle callbacks. -/
def waitRun (totalImages : Nat) : Nat → Nat → Bool
  | _, 0 => false
  | loadedCount, s + 1 =>
    (loadedCount + 1 = totalImages) || waitRun totalImages (loadedCount + 1) s

/-- Whether the `waitForImages` promise resolves when `totalImages` images
are waited on and `settled` settle callbacks eventually arrive. -/
def waitForImagesResolved (totalImages settled : Nat) : Bool :=
  waitRun totalImages 0 settled

/-- Embeds `formatDate(dateString)`: a date-only string (no `'T'`) is normalized by
appending `T00:00:00Z`; if the normalized string does not parse
(`isNaN(date.getTime())`), the original input is returned unchanged;
otherwise the locale rendering of the parsed date is returned.  `dp` models
`new Date(...).getTime()` (`none` for `NaN`) and `tl` models
`toLocaleDateString` with the fixed option object. -/
def formatDate (dp : String → Option Int) (tl : Int → String) (dateString : String) : String :=
  let normalizedDate :=
    if dateString.contains 'T' then dateString else dateString ++ "T00:00:00Z"
  match dp normalizedDate with
  | none => dateString
  | some t => tl t

end NP

namespace NP

/-! ## Helper lemmas about the chronological ordering -/
theorem jsDateLe_refl (dv : String → Option Int) (v : Visit) : jsDateLe dv v v = true := by
  unfold jsDateLe
  cases dv v.date with
  | none => rfl
  | some x => simp

theorem chronoDedup_sublist (seen : List String) :
    ∀ l : List Visit, List.Sublist (chronoDedup seen l) l
  | [] => List.Sublist.refl _
  | v :: rest => by
    unfold chronoDedup
    by_cases h : v.parkCode ∈ seen
    · simp only [h, if_pos]
      exact (chronoDedup_sublist seen rest).cons v
    · simp only [h, if_neg, not_false_iff]
      exact (chronoDedup_sublist (v.parkCode :: seen) rest).cons₂ v

theorem mem_chronoDedup (v : Visit) :
    ∀ (seen : List String) (l : List Visit), v ∈ chronoDedup seen l → v ∈ l ∧ v.parkCode ∉ seen
  | seen, [], h => by simp [chronoDedup] at h
  | seen, u :: rest, h => by
    unfold chronoDedup at h
    by_cases hc : u.parkCode ∈ seen
    · simp only [hc, if_pos] at h
      have := mem_chronoDedup v seen rest h
      exact ⟨List.mem_cons_of_mem _ this.1, this.2⟩
    · simp only [hc, if_neg, not_false_iff, List.mem_cons] at h
      rcases h with h | h
      · exact ⟨by simp [h], by simpa [h] using hc⟩
      · have := mem_chronoDedup v (u.parkCode :: seen) rest h
        refine ⟨List.mem_cons_of_mem _ this.1, fun hs => this.2 (List.mem_cons_of_mem _ hs)⟩

theorem mem_map_chronoDedup (p : String) :
    ∀ (seen : List String) (l : List Visit),
      (p ∈ (chronoDedup seen l).map (·.parkCode) ↔ p ∉ seen ∧ p ∈ l.map (·.parkCode))
  | seen, [] => by simp [chronoDedup]
  | seen, u :: rest => by
    unfold chronoDedup
    by_cases hc : u.parkCode ∈ seen
    · simp only [hc, if_pos, mem_map_chronoDedup p seen rest, List.map_cons, List.mem_cons]
      constructor
      · rintro ⟨hps, hpr⟩
        exact ⟨hps, Or.inr hpr⟩
      · rintro ⟨hps, hpu | hpr⟩
        · exact absurd (hpu ▸ hc) hps
        · exact ⟨hps, hpr⟩
    · simp only [hc, if_neg, not_false_iff, List.map_cons, List.mem_cons,
        mem_map_chronoDedup p (u.parkCode :: seen) rest]
      constructor
      · rintro (hpu | ⟨hps, hpr⟩)
        · exact ⟨by simp [hpu, hc], Or.inl hpu⟩
        · exact ⟨fun hs => hps (Or.inr hs), Or.inr hpr⟩
      · rintro ⟨hps, hpu | hpr⟩
        · exact Or.inl hpu
        · by_cases hup : p = u.parkCode
          · exact Or.inl hup
          · exact Or.inr ⟨by simp [hup, hps], hpr⟩

theorem nodup_map_chronoDedup :
    ∀ (seen : List String) (l : List Visit), ((chronoDedup seen l).map (·.parkCode)).Nodup
  | seen, [] => by simp [chronoDedup]
  | seen, u :: rest => by
    unfold chronoDedup
    by_cases hc : u.parkCode ∈ seen
    · simpa only [hc, if_pos] using nodup_map_chronoDedup seen rest
    · simp only [hc, if_neg, not_false_iff, List.map_cons, List.nodup_cons]
      refine ⟨fun hmem => ?_, nodup_map_chronoDedup (u.parkCode :: seen) rest⟩
      exact ((mem_map_chronoDedup _ _ _).1 hmem).1 (List.mem_cons_self _ _)

/-- In a date-sorted list, any element kept by the dedup filter is the
earliest-dated occurrence of its park code. -/
theorem chronoDedup_first (dv : String → Option Int) :
    ∀ (seen : List String) (l : List Visit),
      l.Pairwise (fun a b => jsDateLe dv a b = true) →
      ∀ v ∈ chronoDedup seen l, ∀ u ∈ l, u.parkCode = v.parkCode → jsDateLe dv v u = true
  | seen, [], _, v, hv => by simp [chronoDedup] at hv
  | seen, w :: rest, hpw, v, hv => by
    intro u hu hcode
    have hpw2 := (List.pairwise_cons.1 hpw).2
    have hw1 := (List.pairwise_cons.1 hpw).1
    unfold chronoDedup at hv
    by_cases hc : w.parkCode ∈ seen
    · simp only [hc, if_pos] at hv
      have hvs := mem_chronoDedup v seen rest hv
      rcases List.mem_cons.1 hu with rfl | hur
      · exact absurd (hcode ▸ hc) hvs.2
      · exact chronoDedup_first dv seen rest hpw2 v hv u hur hcode
    · simp only [hc, if_neg, not_false_iff, List.mem_cons] at hv
      rcases hv with rfl | hv
      · rcases List.mem_cons.1 hu with rfl | hur
        · exact jsDateLe_refl dv _
        · exact hw1 u hur
      · have hvs := mem_chronoDedup v (w.parkCode :: seen) rest hv
        rcases List.mem_cons.1 hu with rfl | hur
        · exact absurd (by rw [hcode]; exact List.mem_cons_self _ _) hvs.2
        · exact chronoDedup_first dv (w.parkCode :: seen) rest hpw2 v hv u hur hcode

theorem sortedVisits_perm (dv : String → Option Int) (visits : List Visit) :
    List.Perm (sortedVisits dv visits) visits :=
  List.mergeSort_perm visits (jsDateLe dv)

theorem mem_sortedVisits (dv : String → Option Int) (visits : List Visit) (v : Visit) :
    v ∈ sortedVisits dv visits ↔ v ∈ visits :=
  List.mem_mergeSort

/-- When every date parses, the comparator behaves like integer `≤` on the
parsed timestamps, and the stable sort produces a date-sorted list. -/
theorem sortedVisits_pairwise (dv : String → Option Int) (visits : List Visit)
    (hp : ∀ v ∈ visits, (dv v.date).isSome) :
    (sortedVisits dv visits).Pairwise (fun a b => jsDateLe dv a b = true) := by
  have hmap := @List.map_mergeSort _ _ (fun a b : {x // x ∈ visits} => jsDateLe dv a.val b.val)
    (jsDateLe dv) Subtype.val visits.attach (fun a _ b _ => rfl)
  rw [List.attach_map_subtype_val] at hmap
  have hattach : sortedVisits dv visits
      = (visits.attach.mergeSort (fun a b => jsDateLe dv a.val b.val)).map Subtype.val :=
    hmap.symm
  rw [hattach, List.pairwise_map]
  refine List.sorted_mergeSort ?_ ?_ visits.attach
  · intro a b c hab hbc
    obtain ⟨x, hx⟩ := Option.isSome_iff_exists.1 (hp a.val a.property)
    obtain ⟨y, hy⟩ := Option.isSome_iff_exists.1 (hp b.val b.property)
    obtain ⟨z, hz⟩ := Option.isSome_iff_exists.1 (hp c.val c.property)
    simp only [jsDateLe, hx, hy, hz, decide_eq_true_eq] at hab hbc ⊢
    omega
  · intro a b
    obtain ⟨x, hx⟩ := Option.isSome_iff_exists.1 (hp a.val a.property)
    obtain ⟨y, hy⟩ := Option.isSome_iff_exists.1 (hp b.val b.property)
    simp only [jsDateLe, hx, hy, Bool.or_eq_true, decide_eq_true_eq]
    omega

/-- The first-kept occurrence of a park code determines its earliest parsed
visit date. -/
theorem earliestDate_eq_of_first (dv : String → Option Int) (visits : List Visit) (v : Visit)
    (hp : ∀ u ∈ visits, (dv u.date).isSome)
    (hmem : v ∈ visits)
    (hfirst : ∀ u ∈ visits, u.parkCode = v.parkCode → jsDateLe dv v u = true) :
    earliestDate dv visits v.parkCode = dv v.date := by
  obtain ⟨x, hx⟩ := Option.isSome_iff_exists.1 (hp v hmem)
  rw [hx]
  unfold earliestDate
  apply (List.min?_eq_some_iff Int.le_refl (fun a b => by omega) (fun a b c => by omega)).2
  constructor
  · exact List.mem_filterMap.2 ⟨v, List.mem_filter.2 ⟨hmem, by simp⟩, hx⟩
  · intro b hb
    obtain ⟨u, hu, hub⟩ := List.mem_filterMap.1 hb
    have hu2 := List.mem_filter.1 hu
    have hcode : u.parkCode = v.parkCode := by simpa using hu2.2
    have hle := hfirst u hu2.1 hcode
    simp only [jsDateLe, hx, hub, decide_eq_true_eq] at hle
    exact hle

theorem chronologicalParks_mem (dv : String → Option Int) (visits : List Visit) (p : String) :
    p ∈ chronologicalParks dv visits ↔ p ∈ visits.map (·.parkCode) := by
  unfold chronologicalParks
  rw [mem_map_chronoDedup]
  simp only [List.not_mem_nil, not_false_iff, true_and]
  constructor
  · intro h
    exact ((sortedVisits_perm dv visits).map (·.parkCode)).mem_iff.1 h
  · intro h
    exact ((sortedVisits_perm dv visits).map (·.parkCode)).mem_iff.2 h

theorem chronologicalParks_nodup (dv : String → Option Int) (visits : List Visit) :
    (chronologicalParks dv visits).Nodup :=
  nodup_map_chronoDedup [] (sortedVisits dv visits)

theorem chronologicalParks_example :
    chronologicalParks exDateVal exVisits = ["B", "A"] := by
  simp [chronologicalParks, sortedVisits, List.mergeSort, List.splitInTwo, jsDateLe,
    exDateVal, exVisits, List.merge, chronoDedup]

theorem chronologicalParks_pairwise (dv : String → Option Int) (visits : List Visit)
    (hp : ∀ v ∈ visits, (dv v.date).isSome) :
    (chronologicalParks dv visits).Pairwise
      (fun p q => ∀ x y, earliestDate dv visits p = some x →
        earliestDate dv visits q = some y → x ≤ y) := by
  have hsorted := sortedVisits_pairwise dv visits hp
  have hsub := chronoDedup_sublist [] (sortedVisits dv visits)
  have hpair : (chronoDedup [] (sortedVisits dv visits)).Pairwise
      (fun a b => jsDateLe dv a b = true) := List.Pairwise.sublist hsub hsorted
  unfold chronologicalParks
  rw [List.pairwise_map]
  refine List.Pairwise.imp_of_mem ?_ hpair
  intro a b ha hb hab
  have hav : a ∈ visits := (mem_sortedVisits dv visits a).1 (mem_chronoDedup a _ _ ha).1
  have hbv : b ∈ visits := (mem_sortedVisits dv visits b).1 (mem_chronoDedup b _ _ hb).1
  have hfa : ∀ u ∈ visits, u.parkCode = a.parkCode → jsDateLe dv a u = true := by
    intro u hu hcode
    exact chronoDedup_first dv [] (sortedVisits dv visits) hsorted a ha u
      ((mem_sortedVisits dv visits u).2 hu) hcode
  have hfb : ∀ u ∈ visits, u.parkCode = b.parkCode → jsDateLe dv b u = true := by
    intro u hu hcode
    exact chronoDedup_first dv [] (sortedVisits dv visits) hsorted b hb u
      ((mem_sortedVisits dv visits u).2 hu) hcode
  have hEa := earliestDate_eq_of_first dv visits a hp hav hfa
  have hEb := earliestDate_eq_of_first dv visits b hp hbv hfb
  intro x y hxe hye
  rw [hEa] at hxe
  rw [hEb] at hye
  simp only [jsDateLe, hxe, hye, decide_eq_true_eq] at hab
  exact hab

/-- C1: for every list of visits whose dates all parse, the reveal sequence
(`chronologicalParks`) contains exactly the visited park codes, each exactly
once, ordered ascending by each marker's earliest visit date (a marker visited
multiple times sits at the position of its earliest-dated visit); and on the
spec's example `[(A,2021-05-01), (B,2020-01-01), (A,2022-01-01)]` the reveal
order is `[B, A]`. -/
theorem claim1_reveal_order (dv : String → Option Int) (visits : List Visit)
    (hp : ∀ v ∈ visits, (dv v.date).isSome) :
    (∀ p, p ∈ chronologicalParks dv visits ↔ p ∈ visits.map (·.parkCode)) ∧
    (chronologicalParks dv visits).Nodup ∧
    (chronologicalParks dv visits).Pairwise
      (fun p q => ∀ x y, earliestDate dv visits p = some x →
        earliestDate dv visits q = some y → x ≤ y) ∧
    chronologicalParks exDateVal exVisits = ["B", "A"] :=
  ⟨chronologicalParks_mem dv visits, chronologicalParks_nodup dv visits,
    chronologicalParks_pairwise dv visits hp, chronologicalParks_example⟩

/-- Witness for C1 at the spec's example input: all three dates parse, and the
conclusion holds for it. -/
theorem claim1_reveal_order_witness :
    (∀ v ∈ exVisits, ((exDateVal v.date).isSome = true)) ∧
    ((∀ p, p ∈ chronologicalParks exDateVal exVisits ↔ p ∈ exVisits.map (·.parkCode)) ∧
    (chronologicalParks exDateVal exVisits).Nodup ∧
    (chronologicalParks exDateVal exVisits).Pairwise
      (fun p q => ∀ x y, earliestDate exDateVal exVisits p = some x →
        earliestDate exDateVal exVisits q = some y → x ≤ y) ∧
    chronologicalParks exDateVal exVisits = ["B", "A"]) :=
  ⟨by decide, claim1_reveal_order exDateVal exVisits (by decide)⟩

/-- C8 counterexample: the claim says a visit whose date string fails to parse
is excluded from the chronological order; in the code it is not. With a single
visit whose date does not parse (`new Date` yields `NaN`, modelled by the date
valuation returning `none`), the chronological order still contains its park
code instead of being empty. -/
theorem claim8_counterexample :
    chronologicalParks (fun _ => none) [⟨"abcd", "not-a-date"⟩] = ["abcd"] ∧
    chronologicalParks (fun _ => none) [⟨"abcd", "not-a-date"⟩] ≠ [] := by
  constructor
  · simp [chronologicalParks, sortedVisits, chronoDedup]
  · simp [chronologicalParks, sortedVisits, chronoDedup]

/-- C8 amended: building the chronological order never crashes (the step is a
total function), but a visit whose date fails to parse is retained, not
excluded: the order always consists of exactly the distinct park codes of all
visits, comparing unparseable dates as ties (the comparator's `NaN` is treated
as `+0` by the sort). -/
theorem claim8_amended (dv : String → Option Int) (visits : List Visit) :
    (∀ p, p ∈ chronologicalParks dv visits ↔ p ∈ visits.map (·.parkCode)) ∧
    (chronologicalParks dv visits).Nodup ∧
    chronologicalParks (fun _ => none) [⟨"abcd", "not-a-date"⟩] = ["abcd"] :=
  ⟨chronologicalParks_mem dv visits, chronologicalParks_nodup dv visits, by
    simp [chronologicalParks, sortedVisits, chronoDedup]⟩

/-! ## Lemmas for the reveal sequencer -/
theorem currentIndexAt_mono (total : Nat) (duration start t1 t2 : ℚ)
    (hd : 0 < duration) (h1 : start ≤ t1) (h12 : t1 ≤ t2) :
    currentIndexAt total duration start t1 ≤ currentIndexAt total duration start t2 := by
  unfold currentIndexAt revealProgress easeInQuad
  have hp1 : (0:ℚ) ≤ (t1 - start) / duration := div_nonneg (by linarith) hd.le
  have hple : (t1 - start) / duration ≤ (t2 - start) / duration :=
    (div_le_div_iff_of_pos_right hd).2 (by linarith)
  have h0p1 : (0:ℚ) ≤ min ((t1 - start) / duration) 1 := le_min hp1 zero_le_one
  have hp12 : min ((t1 - start) / duration) 1 ≤ min ((t2 - start) / duration) 1 :=
    min_le_min hple (le_refl 1)
  have hsq : min ((t1 - start) / duration) 1 * min ((t1 - start) / duration) 1
      ≤ min ((t2 - start) / duration) 1 * min ((t2 - start) / duration) 1 :=
    mul_le_mul hp12 hp12 h0p1 (le_trans h0p1 hp12)
  have hmul : min ((t1 - start) / duration) 1 * min ((t1 - start) / duration) 1 * total
      ≤ min ((t2 - start) / duration) 1 * min ((t2 - start) / duration) 1 * total :=
    mul_le_mul_of_nonneg_right hsq (by positivity)
  exact Int.toNat_le_toNat (Int.floor_le_floor hmul)

theorem revealFrame_lastIndex (parks : List String) (present : String → Bool)
    (duration start : ℚ) (s : RevealState) (t : ℚ) :
    (revealFrame parks present duration start s t).1.lastProcessedIndex
      = currentIndexAt parks.length duration start t := by
  unfold revealFrame currentIndexAt
  by_cases h : revealProgress duration start t < 1 <;> simp [h]

theorem revealProgress_final (duration start t : ℚ) (hd : 0 < duration)
    (hfin : start + duration ≤ t) : revealProgress duration start t = 1 := by
  unfold revealProgress
  have : (1:ℚ) ≤ (t - start) / duration := (one_le_div hd).2 (by linarith)
  exact min_eq_right this

theorem mem_revealRange (parks : List String) (present : String → Bool)
    (lo hi i : Nat) (c : String) (hlo : lo ≤ i) (hhi : i < hi)
    (hc : parks[i]? = some c) (hp : present c = true) :
    c ∈ revealRange parks present lo hi := by
  unfold revealRange
  apply List.mem_filterMap.2
  refine ⟨i, ?_, ?_⟩
  · exact List.mem_range'.2 ⟨i - lo, by omega, by omega⟩
  · simp [hc, hp]

theorem chronologicalParks_length (dv : String → Option Int) (visits : List Visit) :
    (chronologicalParks dv visits).length = uniqueParkCount visits := by
  have h1 := chronologicalParks_nodup dv visits
  have h2 : ((visits.map (·.parkCode)).dedup).Nodup := List.nodup_dedup _
  have hperm : List.Perm (chronologicalParks dv visits) ((visits.map (·.parkCode)).dedup) := by
    rw [List.perm_ext_iff_of_nodup h1 h2]
    intro p
    rw [List.mem_dedup]
    exact chronologicalParks_mem dv visits p
  exact hperm.length_eq

theorem revealRange_self (parks : List String) (present : String → Bool) (n : Nat) :
    revealRange parks present n n = [] := by
  simp [revealRange]

/-- At a frame whose timestamp is past `start + duration`, the outer timeline
reaches progress 1: the frame stops the loop, advances the cursor to
`totalParks`, reveals everything left, and schedules pop-ins only for the
range handled by the normal loop (the finalization loop schedules nothing). -/
theorem revealFrame_final (parks : List String) (present : String → Bool)
    (duration start : ℚ) (s : RevealState) (t : ℚ)
    (hd : 0 < duration) (hfin : start + duration ≤ t) :
    revealFrame parks present duration start s t
      = ({ lastProcessedIndex := parks.length,
           revealed := s.revealed ++ revealRange parks present s.lastProcessedIndex parks.length,
           tasks := s.tasks
             ++ (revealRange parks present s.lastProcessedIndex parks.length).map
                  (fun c => (c, t)) },
         false) := by
  unfold revealFrame
  rw [revealProgress_final duration start t hd hfin]
  have hci : (Int.floor (easeInQuad 1 * (parks.length:ℚ))).toNat = parks.length := by
    simp [easeInQuad]
  simp [hci, revealRange_self]

/-- C2: during one playback the revealed-index cursor after a frame equals
`currentIndexAt` of the frame's timestamp, which is monotone non-decreasing in
time; a frame at or past `start + duration` (progress 1) stops the loop, sets
the cursor to `totalMarkerCount`, force-reveals every remaining present marker
while scheduling pop-in tasks only from the normal loop (the finalization loop
adds no animation), and the counter's final frame displays exactly the
unique-visited-marker count, which equals the reveal sequence's
`totalMarkerCount`. -/
theorem claim2_reveal_monotone_finalize
    (parks : List String) (present : String → Bool) (duration start : ℚ)
    (dv : String → Option Int) (visits : List Visit)
    (hd : 0 < duration) (s s2 : RevealState) (t t1 t2 : ℚ)
    (h1 : start ≤ t1) (h12 : t1 ≤ t2) (hfin : start + duration ≤ t)
    (hrev : ∀ i, i < s.lastProcessedIndex → ∀ c, parks[i]? = some c →
      present c = true → c ∈ s.revealed) :
    ((revealFrame parks present duration start s2 t1).1.lastProcessedIndex
        = currentIndexAt parks.length duration start t1) ∧
    (currentIndexAt parks.length duration start t1
        ≤ currentIndexAt parks.length duration start t2) ∧
    ((revealFrame parks present duration start s t).2 = false) ∧
    ((revealFrame parks present duration start s t).1.lastProcessedIndex = parks.length) ∧
    ((revealFrame parks present duration start s t).1.tasks
        = s.tasks ++ (revealRange parks present s.lastProcessedIndex parks.length).map
            (fun c => (c, t))) ∧
    (∀ i, i < parks.length → ∀ c, parks[i]? = some c → present c = true →
        c ∈ (revealFrame parks present duration start s t).1.revealed) ∧
    ((animateCountFrame (uniqueParkCount visits) duration start t).2 = false) ∧
    ((animateCountFrame (uniqueParkCount visits) duration start t).1 = uniqueParkCount visits) ∧
    ((chronologicalParks dv visits).length = uniqueParkCount visits) := by
  have hframe := revealFrame_final parks present duration start s t hd hfin
  have hcount : animateCountFrame (uniqueParkCount visits) duration start t
      = (uniqueParkCount visits, false) := by
    have hp1 : min ((t - start) / duration) 1 = 1 := by
      have h := revealProgress_final duration start t hd hfin
      unfold revealProgress at h
      exact h
    unfold animateCountFrame
    rw [hp1]
    simp
  refine ⟨revealFrame_lastIndex parks present duration start s2 t1,
    currentIndexAt_mono parks.length duration start t1 t2 hd h1 h12,
    by rw [hframe], by rw [hframe], by rw [hframe], ?_,
    by rw [hcount], by rw [hcount],
    chronologicalParks_length dv visits⟩
  intro i hi c hc hp
  rw [hframe]
  simp only [List.mem_append]
  by_cases hlt : i < s.lastProcessedIndex
  · exact Or.inl (hrev i hlt c hc hp)
  · exact Or.inr (mem_revealRange parks present s.lastProcessedIndex parks.length i c
      (Nat.le_of_not_lt hlt) hi hc hp)

/-- Witness for C2 with two markers, the standard 1500 ms duration, frames at
0, 700 and the final frame at 1500. -/
theorem claim2_reveal_monotone_finalize_witness :
    ((0:ℚ) < 1500) ∧ ((0:ℚ) ≤ 0) ∧ ((0:ℚ) + 1500 ≤ 1500) ∧
    ((revealFrame ["yose", "glac"] (fun _ => true) 1500 0 ⟨0, [], []⟩ 1500).2 = false ∧
     (revealFrame ["yose", "glac"] (fun _ => true) 1500 0 ⟨0, [], []⟩
        1500).1.lastProcessedIndex = ["yose", "glac"].length ∧
     (animateCountFrame (uniqueParkCount exVisits) 1500 0 1500).1
        = uniqueParkCount exVisits ∧
     (chronologicalParks exDateVal exVisits).length = uniqueParkCount exVisits) := by
  have h := claim2_reveal_monotone_finalize ["yose", "glac"] (fun _ => true) 1500 0
    exDateVal exVisits (by norm_num) ⟨0, [], []⟩ ⟨0, [], []⟩ 1500 0 700
    (le_refl 0) (by norm_num) (by norm_num)
    (by intro i hi; exact absurd hi (Nat.not_lt_zero i))
  exact ⟨by norm_num, le_refl 0, by norm_num,
    h.2.2.1, h.2.2.2.1, h.2.2.2.2.2.2.2.1, h.2.2.2.2.2.2.2.2⟩

theorem runAnimFrames_nil (f : ℚ → ℚ) (D : ℚ) :
    ∀ ts : List ℚ, runAnimFrames f D [] ts = []
  | [] => rfl
  | _ :: ts => runAnimFrames_nil f D ts

theorem runAnimFrames_append (f : ℚ → ℚ) (D : ℚ) :
    ∀ (l1 l2 : List ℚ) (anims : List ParkAnim),
      runAnimFrames f D anims (l1 ++ l2) = runAnimFrames f D (runAnimFrames f D anims l1) l2
  | [], _, _ => rfl
  | t :: l1, l2, anims => by
    show runAnimFrames f D (updateAnimatingParks f D t anims).1 (l1 ++ l2)
        = runAnimFrames f D (runAnimFrames f D (updateAnimatingParks f D t anims).1 l1) l2
    exact runAnimFrames_append f D l1 l2 _

theorem tickAnim_complete (f : ℚ → ℚ) (D now : ℚ) (a : ParkAnim)
    (hD : 0 < D) (h : a.startTime + D ≤ now) :
    tickAnim f D now a = (none, (a.code, TransformWrite.cleared)) := by
  unfold tickAnim
  have h1 : (1:ℚ) ≤ (now - a.startTime) / D := (one_le_div hD).2 (by linarith)
  rw [min_eq_right h1]
  simp

theorem tickAnim_keep (f : ℚ → ℚ) (D now : ℚ) (a : ParkAnim)
    (hD : 0 < D) (h : now < a.startTime + D) :
    tickAnim f D now a
      = (some a, (a.code, TransformWrite.scaleAt a.cx a.cy
          (easeOutElasticWith f (min ((now - a.startTime) / D) 1)))) := by
  unfold tickAnim
  have h1 : (now - a.startTime) / D < 1 := (div_lt_one hD).2 (by linarith)
  have h2 : min ((now - a.startTime) / D) 1 < 1 := lt_of_le_of_lt (min_le_left _ _) h1
  simp [not_le.2 h2]

theorem runAnimFrames_keep (f : ℚ → ℚ) (D : ℚ) (hD : 0 < D) (a : ParkAnim) :
    ∀ ts : List ℚ, (∀ u ∈ ts, u < a.startTime + D) → runAnimFrames f D [a] ts = [a]
  | [], _ => rfl
  | t :: ts, h => by
    unfold runAnimFrames
    have hkeep : (updateAnimatingParks f D t [a]).1 = [a] := by
      unfold updateAnimatingParks
      rw [show [a].filterMap (fun a => (tickAnim f D t a).1) = [a] from by
        simp [tickAnim_keep f D t a hD (h t (List.mem_cons_self _ _))]]
    rw [hkeep]
    exact runAnimFrames_keep f D hD a ts (fun u hu => h u (List.mem_cons_of_mem _ hu))

/-- C3: for a pop-in task of duration `D` started at `startTime`, over any
monotone sequence of tick timestamps whose tick `k` is the first with
`now - startTime >= D`: the task survives every tick before `k` (each such
tick writes an eased scale transform, not a completion), completes exactly at
tick `k` — its net write being the cleared (identity) transform — is removed
there, and is never re-invoked afterwards (the array stays empty and ticks on
the empty array write nothing). -/
theorem claim3_popin_completion (f : ℚ → ℚ) (D : ℚ) (hD : 0 < D) (a : ParkAnim)
    (times : List ℚ) (hmono : times.Pairwise (· ≤ ·)) (k : Nat) (hk : k < times.length)
    (hat : a.startTime + D ≤ times[k])
    (hbefore : ∀ j (hj : j < times.length), j < k → times[j] < a.startTime + D) :
    (∀ j, j ≤ k → runAnimFrames f D [a] (times.take j) = [a]) ∧
    (∀ j, k < j → runAnimFrames f D [a] (times.take j) = []) ∧
    ((updateAnimatingParks f D times[k] [a]).2 = [(a.code, TransformWrite.cleared)]) ∧
    (∀ j (hj : j < times.length), j < k →
      (updateAnimatingParks f D times[j] [a]).2
        = [(a.code, TransformWrite.scaleAt a.cx a.cy
            (easeOutElasticWith f (min ((times[j] - a.startTime) / D) 1)))]) ∧
    (∀ now, updateAnimatingParks f D now (runAnimFrames f D [a] (times.take (k + 1)))
        = ([], [])) := by
  have hconj1 : ∀ j, j ≤ k → runAnimFrames f D [a] (times.take j) = [a] := by
    intro j hj
    apply runAnimFrames_keep f D hD a
    intro u hu
    obtain ⟨i, hi, hiu⟩ := List.getElem_of_mem hu
    have hlen : i < j ∧ i < times.length := by
      rw [List.length_take] at hi
      omega
    rw [List.getElem_take] at hiu
    rw [← hiu]
    exact hbefore i hlen.2 (Nat.lt_of_lt_of_le hlen.1 hj)
  have hcompl : (updateAnimatingParks f D times[k] [a]).1 = [] := by
    unfold updateAnimatingParks
    simp [tickAnim_complete f D times[k] a hD hat]
  have hstep : runAnimFrames f D [a] (times.take (k + 1)) = [] := by
    rw [List.take_succ, List.getElem?_eq_getElem hk]
    rw [runAnimFrames_append]
    rw [hconj1 k (le_refl k)]
    show (updateAnimatingParks f D times[k] [a]).1 = []
    exact hcompl
  refine ⟨hconj1, ?_, ?_, ?_, ?_⟩
  · intro j hkj
    have h1 : List.take (k + 1) (List.take j times) = List.take (k + 1) times := by
      rw [List.take_take]
      congr 1
      omega
    have hdecomp : times.take j
        = times.take (k + 1) ++ (times.take j).drop (k + 1) := by
      conv_lhs => rw [← List.take_append_drop (k + 1) (times.take j)]
      rw [h1]
    rw [hdecomp, runAnimFrames_append, hstep, runAnimFrames_nil]
  · unfold updateAnimatingParks
    simp [tickAnim_complete f D times[k] a hD hat]
  · intro j hj hjk
    unfold updateAnimatingParks
    simp [tickAnim_keep f D times[j] a hD (hbefore j hj hjk)]
  · intro now
    rw [hstep]
    rfl

/-- Witness for C3: one task for marker `yose`, started at 0 with duration
200, over ticks at 50, 100, 250, 300; completion is at the third tick. -/
theorem claim3_popin_completion_witness :
    ((0:ℚ) < 200) ∧
    (runAnimFrames (fun t => t) 200 [⟨"yose", 3, 5, 0⟩]
        ([(50:ℚ), 100, 250, 300].take 2) = [⟨"yose", 3, 5, 0⟩]) ∧
    (runAnimFrames (fun t => t) 200 [⟨"yose", 3, 5, 0⟩]
        ([(50:ℚ), 100, 250, 300].take 3) = []) ∧
    ((updateAnimatingParks (fun t => t) 200 250 [⟨"yose", 3, 5, 0⟩]).2
        = [("yose", TransformWrite.cleared)]) := by
  have h := claim3_popin_completion (fun t => t) 200 (by norm_num) ⟨"yose", 3, 5, 0⟩
    [(50:ℚ), 100, 250, 300] (by norm_num) 2 (by norm_num) (by norm_num)
    (by intro j hj hjk; interval_cases j <;> norm_num)
  exact ⟨by norm_num, h.1 2 (by omega), h.2.1 3 (by omega), h.2.2.1⟩

/-- C4: tooltip placement is a pure function of anchor, tooltip size,
viewport size/offset and padding; the code's per-axis flip decision agrees
with the spec's rule applied to the selected viewport (visual viewport when
available, window otherwise); and at anchor `(viewportWidth - 5, 10)` with a
200×80 tooltip, padding 0, and a window at least 90 tall, the horizontal flip
is on and the vertical flip is off. -/
theorem claim4_tooltip_flip (vv : Option VisualViewport)
    (innerWidth innerHeight tipW tipH x y padding w h : ℚ) (hh : 90 ≤ h) :
    ((positionTooltip vv innerWidth innerHeight tipW tipH x y padding).flipX
        = specAxisFlip (x - (specViewport vv innerWidth innerHeight).2.2.1) tipW
            (specViewport vv innerWidth innerHeight).1 padding) ∧
    ((positionTooltip vv innerWidth innerHeight tipW tipH x y padding).flipY
        = specAxisFlip (y - (specViewport vv innerWidth innerHeight).2.2.2) tipH
            (specViewport vv innerWidth innerHeight).2.1 padding) ∧
    ((positionTooltip vv innerWidth innerHeight tipW tipH x y padding).tx = x) ∧
    ((positionTooltip vv innerWidth innerHeight tipW tipH x y padding).ty = y) ∧
    (positionTooltip none w h 200 80 (w - 5) 10 0
        = { tx := w - 5, ty := 10, flipX := true, flipY := false }) := by
  refine ⟨?_, ?_, ?_, ?_, ?_⟩
  · cases vv <;> rfl
  · cases vv <;> rfl
  · cases vv <;> rfl
  · cases vv <;> rfl
  · unfold positionTooltip
    simp only [TooltipPlacement.mk.injEq, decide_eq_true_iff, decide_eq_false_iff_not]
    norm_num
    constructor <;> linarith

/-- Witness for C4 with no visual viewport and a 1024×768 window. -/
theorem claim4_tooltip_flip_witness :
    ((90:ℚ) ≤ 768) ∧
    (positionTooltip none 1024 768 200 80 (1024 - 5) 10 0
        = { tx := 1024 - 5, ty := 10, flipX := true, flipY := false }) :=
  ⟨by norm_num,
    (claim4_tooltip_flip none 1024 768 200 80 0 0 0 1024 768 (by norm_num)).2.2.2.2⟩

/-- C5: while `touchState.active` is true, every mouse handler (`mouseover`,
`mousemove`, `mouseout`) leaves the tooltip state — visibility, content and
position — entirely unchanged. -/
theorem claim5_touch_suppresses_mouse (ts : TouchState) (d : Park) (tt : TooltipView)
    (vv : Option VisualViewport) (innerWidth innerHeight tipW tipH clientX clientY : ℚ)
    (ha : ts.active = true) :
    onMouseOver ts d tt = tt ∧
    onMouseMove ts vv innerWidth innerHeight tipW tipH clientX clientY tt = tt ∧
    onMouseOut ts tt = tt := by
  refine ⟨?_, ?_, ?_⟩ <;> simp [onMouseOver, onMouseMove, onMouseOut, ha]

/-- Witness for C5 at a concrete active touch state and tooltip state. -/
theorem claim5_touch_suppresses_mouse_witness :
    (TouchState.mk true (some "yose")).active = true ∧
    (onMouseOver ⟨true, some "yose"⟩ ⟨"glac", "Glacier", "MT"⟩ ⟨false, none, none⟩
        = ⟨false, none, none⟩ ∧
     onMouseMove ⟨true, some "yose"⟩ none 1024 768 200 80 10 10 ⟨false, none, none⟩
        = ⟨false, none, none⟩ ∧
     onMouseOut ⟨true, some "yose"⟩ ⟨false, none, none⟩ = ⟨false, none, none⟩) :=
  ⟨rfl, claim5_touch_suppresses_mouse ⟨true, some "yose"⟩ ⟨"glac", "Glacier", "MT"⟩
    ⟨false, none, none⟩ none 1024 768 200 80 10 10 rfl⟩

/-- C6 counterexample: the claim says `active` is cleared only after two
animation-frame callbacks following touch-end, never by an earlier event of
the sequence — so after a touch-start it must be true.  Tapping marker `yose`,
finishing that interaction (touch-end plus two frames), then touch-starting
the same marker again leaves `active = false` at the end of the second
touch-start: the toggle-off branch of the `touchstart` handler clears it
synchronously, with no touch-end and no frame callback involved. -/
theorem claim6_counterexample :
    (runInteraction none 1024 768 200 80 initialInteraction
      [TouchEvent.startOnMarker ⟨"yose", "Yosemite", "CA"⟩ 10 10, TouchEvent.endTouch,
       TouchEvent.frame, TouchEvent.frame,
       TouchEvent.startOnMarker ⟨"yose", "Yosemite", "CA"⟩ 10 10]).touch.active = false := by
  rfl

/-- C6 amended: a marker touch-start sets `active` true synchronously unless
the tapped marker is the currently selected one; and `active` transitions
from true to false only through (a) a toggle-off touch-start on the currently
selected marker, (b) a touch-start outside all markers, or (c) an animation
frame on which a chain registered by a touch-end fires while the tooltip is
still displayed. -/
theorem claim6_amended (vv : Option VisualViewport) (innerW innerH tipW tipH : ℚ)
    (s : InteractionState) (e : TouchEvent) :
    (∀ d tx ty, e = TouchEvent.startOnMarker d tx ty →
        s.touch.currentTarget ≠ some d.parkCode →
        (interactionStep vv innerW innerH tipW tipH s e).touch.active = true) ∧
    ((interactionStep vv innerW innerH tipW tipH s e).touch.active = false →
      s.touch.active = false ∨
      (∃ d tx ty, e = TouchEvent.startOnMarker d tx ty ∧
        s.touch.currentTarget = some d.parkCode) ∨
      e = TouchEvent.startOutside ∨
      (e = TouchEvent.frame ∧ (s.pendingFrames.map (fun n => n - 1)).contains 0 = true ∧
        s.tooltip.display = true)) := by
  cases e with
  | startOnMarker d tx ty =>
    by_cases hsame : s.touch.currentTarget = some d.parkCode
    · constructor
      · intro d2 tx2 ty2 heq hne
        cases heq
        exact absurd hsame hne
      · intro _
        exact Or.inr (Or.inl ⟨d, tx, ty, rfl, hsame⟩)
    · constructor
      · intro d2 tx2 ty2 heq hne
        cases heq
        simp [interactionStep, touchStartOnMarkerStep, hsame]
      · intro hfalse
        simp [interactionStep, touchStartOnMarkerStep, hsame] at hfalse
  | startOutside =>
    exact ⟨fun d tx ty heq => absurd heq (by simp), fun _ => Or.inr (Or.inr (Or.inl rfl))⟩
  | endTouch =>
    refine ⟨fun d tx ty heq => absurd heq (by simp), fun hfalse => Or.inl ?_⟩
    simpa [interactionStep, touchEndStep] using hfalse
  | frame =>
    refine ⟨fun d tx ty heq => absurd heq (by simp), fun hfalse => ?_⟩
    simp only [interactionStep, frameStep] at hfalse
    by_cases hact : s.touch.active
    · by_cases hfire : ((s.pendingFrames.map (fun n => n - 1)).contains 0
          && s.touch.active && s.tooltip.display) = true
      · simp only [Bool.and_eq_true] at hfire
        exact Or.inr (Or.inr (Or.inr ⟨rfl, hfire.1.1, hfire.2⟩))
      · rw [if_neg (by simpa using hfire)] at hfalse
        exact absurd hfalse (by simp [hact])
    · exact Or.inl (by simpa using hact)

/-- Witness for C6 amended: a fresh touch-start on `yose` from the initial
state sets `active` true synchronously. -/
theorem claim6_amended_witness :
    (interactionStep none 1024 768 200 80 initialInteraction
        (TouchEvent.startOnMarker ⟨"yose", "Yosemite", "CA"⟩ 10 10)).touch.active = true :=
  (claim6_amended none 1024 768 200 80 initialInteraction
      (TouchEvent.startOnMarker ⟨"yose", "Yosemite", "CA"⟩ 10 10)).1
    ⟨"yose", "Yosemite", "CA"⟩ 10 10 rfl (fun h => Option.noConfusion h)

theorem createParkNodes_length (proj : ℚ × ℚ → Option (ℚ × ℚ)) (config : Config) :
    ∀ places : List Place,
      (createParkNodes proj places config).length
        = (places.filter (fun d => (proj (d.longitude, d.latitude)).isSome)).length
  | [] => rfl
  | d :: rest => by
    unfold createParkNodes
    unfold createParkNodes at createParkNodes_length
    cases hp : proj (d.longitude, d.latitude) with
    | none => simpa [hp] using createParkNodes_length proj config rest
    | some c => simpa [hp] using createParkNodes_length proj config rest

/-- C7 counterexample: the claim says an unprojectable marker "is not counted
anywhere downstream — including in the final counter value".  With one park
whose projection fails and one visit to it, the node set is empty (the marker
is dropped) yet the counter target — computed from the visits list alone — is
1, not 0: the dropped marker is still counted. -/
theorem claim7_counterexample :
    createParkNodes (fun _ => none) [⟨"yose", -119, 37⟩] CONFIG = [] ∧
    uniqueParkCount [⟨"yose", "2021-05-01"⟩] = 1 :=
  ⟨rfl, rfl⟩

/-- C7 amended: a marker whose projection returns no result is silently
dropped from the node set (exactly the projectable places produce nodes, each
node carrying its successful projection as anchor), so it never reaches the
force simulation, which consumes only the node list; but the final counter is
computed from the visits list alone, so a visited park is counted whether or
not its marker was dropped. -/
theorem claim7_amended (proj : ℚ × ℚ → Option (ℚ × ℚ)) (places : List Place)
    (config : Config) (visits : List Visit) (v : Visit) (hv : v ∈ visits) :
    ((createParkNodes proj places config).length
        = (places.filter (fun d => (proj (d.longitude, d.latitude)).isSome)).length) ∧
    (∀ n ∈ createParkNodes proj places config, ∃ d ∈ places,
        proj (d.longitude, d.latitude) = some (n.px, n.py) ∧ n.parkCode = d.parkCode) ∧
    (v.parkCode ∈ (visits.map (·.parkCode)).dedup) ∧
    (0 < uniqueParkCount visits) := by
  have hmem : v.parkCode ∈ (visits.map (·.parkCode)).dedup :=
    List.mem_dedup.2 (List.mem_map_of_mem _ hv)
  refine ⟨createParkNodes_length proj config places, ?_, hmem, ?_⟩
  · intro n hn
    obtain ⟨d, hd, hf⟩ := List.mem_filterMap.1 hn
    obtain ⟨c, hc, hmk⟩ := Option.map_eq_some'.1 hf
    refine ⟨d, hd, ?_, ?_⟩
    · rw [← hmk]
      cases c
      exact hc
    · rw [← hmk]
  · unfold uniqueParkCount
    exact List.length_pos.2 (List.ne_nil_of_mem hmem)

/-- Witness for C7 amended at a failing projection with one visited park. -/
theorem claim7_amended_witness :
    ((⟨"yose", "2021-05-01"⟩ : Visit) ∈ [(⟨"yose", "2021-05-01"⟩ : Visit)]) ∧
    ((∀ n ∈ createParkNodes (fun _ => none) [⟨"yose", -119, 37⟩] CONFIG, ∃ d ∈
        [(⟨"yose", -119, 37⟩ : Place)],
        (fun (_ : ℚ × ℚ) => (none : Option (ℚ × ℚ))) (d.longitude, d.latitude)
          = some (n.px, n.py) ∧ n.parkCode = d.parkCode) ∧
     0 < uniqueParkCount [⟨"yose", "2021-05-01"⟩]) := by
  have h := claim7_amended (fun _ => none) [⟨"yose", -119, 37⟩] CONFIG
    [⟨"yose", "2021-05-01"⟩] ⟨"yose", "2021-05-01"⟩ (List.mem_cons_self _ _)
  exact ⟨List.mem_cons_self _ _, h.2.1, h.2.2.2⟩

theorem waitRun_reaches : ∀ (s : Nat), ∀ loaded : Nat, 0 < s →
    waitRun (loaded + s) loaded s = true
  | 0, _, h => absurd h (by omega)
  | s + 1, loaded, _ => by
    unfold waitRun
    rcases Nat.eq_zero_or_pos s with hs | hs
    · subst hs
      simp
    · have hrec := waitRun_reaches s (loaded + 1) hs
      rw [show loaded + (s + 1) = (loaded + 1) + s from by omega]
      rw [hrec]
      simp

/-- C9: on empty input the counter path and the reveal sequencer are no-ops
as the claim says — zero visits put the text `0` up immediately, schedule no
frame and produce an empty order — but with zero markers `waitForImages`
never resolves: `resolve` is reachable only through a settle callback, and an
empty image set triggers none, so the awaited promise hangs instead of
completing (it does resolve for any non-empty image set once every image
settles).  The zero-marker clause of the claim is therefore a genuine bug in
the code, not a spec error. -/
theorem claim9_empty_input :
    updateParksCounterStart [] = CounterStart.immediate 0 ∧
    animateChronologicalRevealStarts [] = false ∧
    (∀ dv : String → Option Int, chronologicalParks dv [] = []) ∧
    waitForImagesResolved 0 0 = false ∧
    (∀ n : Nat, waitForImagesResolved (n + 1) (n + 1) = true) := by
  refine ⟨rfl, rfl, ?_, rfl, ?_⟩
  · intro dv
    simp [chronologicalParks, sortedVisits, chronoDedup]
  · intro n
    have h := waitRun_reaches (n + 1) 0 (by omega)
    rw [Nat.zero_add] at h
    exact h

/-- C10: `formatDate` is total; a date-only input (no `'T'`) is parsed after
appending `T00:00:00Z`, an input containing `'T'` is parsed as is; whenever
the normalized string fails to parse the original input comes back unchanged,
and whenever it parses the locale rendering is returned. -/
theorem claim10_formatDate (dp : String → Option Int) (tl : Int → String) (s : String) :
    (s.contains 'T' = false → dp (s ++ "T00:00:00Z") = none → formatDate dp tl s = s) ∧
    (s.contains 'T' = true → dp s = none → formatDate dp tl s = s) ∧
    (s.contains 'T' = false → ∀ t, dp (s ++ "T00:00:00Z") = some t →
        formatDate dp tl s = tl t) ∧
    (s.contains 'T' = true → ∀ t, dp s = some t → formatDate dp tl s = tl t) := by
  refine ⟨?_, ?_, ?_, ?_⟩
  · intro hT hp
    simp [formatDate, hT, hp]
  · intro hT hp
    simp [formatDate, hT, hp]
  · intro hT t hp
    simp [formatDate, hT, hp]
  · intro hT t hp
    simp [formatDate, hT, hp]

/-- Witness for C10: a date-only malformed string with a parser that rejects
everything comes back unchanged. -/
theorem claim10_formatDate_witness :
    ("2020-13-99".contains 'T' = false) ∧
    formatDate (fun _ => none) (fun _ => "") "2020-13-99" = "2020-13-99" := by
  have hT : "2020-13-99".contains 'T' = false := by
    have hm : ¬ ('T' ∈ "2020-13-99".data) := by decide
    exact Bool.eq_false_iff.2 (fun h => hm ((String.contains_iff _ _).1 h))
  have h := claim10_formatDate (fun _ => none) (fun _ => "") "2020-13-99"
  exact ⟨hT, h.1 hT rfl⟩

end NP
